import Mathlib

/-!
Verification of the operation-lifecycle engine of `io-uring-async`
(src/src/lib.rs): the `Lifecycle` state machine, the shared slot table
(`slab`), the `Op`/`OpInner` future, the cancellation protocol on drop,
and the engine operations `push`, `handle_cqe` and `submit`.

Rust panics are modelled as `none`/dedicated constructors; the slot table
is a list of optional `Lifecycle` records indexed by slot id; wakers are
modelled by opaque numeric ids, and waking a waker is recorded in an
output list.
-/

/-- Modelled from the spec: a completion-queue entry (the `cqueue` module is
declared in lib.rs but its file is absent from src/). It carries the opaque
correlation tag (`user_data`) and a signed result code, and is cheaply
duplicable (cloned on poll). -/
structure Cqe where
  user_data : Nat
  result : Int
deriving Repr, DecidableEq

/-- Modelled from the spec: a submission-queue entry (the `squeue` module is
declared in lib.rs but its file is absent from src/). `payload` stands for the
opaque opcode and parameters; `user_data` is the correlation tag, overwritten
by the engine. -/
structure Sqe where
  payload : Nat
  user_data : Nat
deriving Repr, DecidableEq

/-- Modelled from the spec: the `squeue::Entry::user_data` builder, which sets
the correlation tag of a submission entry. -/
def Sqe.setUserData (e : Sqe) (tag : Nat) : Sqe :=
  { e with user_data := tag }

/-- The per-operation state (lib.rs lines 8-23). The waker is an opaque id. -/
inductive Lifecycle where
  | Submitted : Lifecycle
  | Waiting : Nat → Lifecycle
  | Completed : Cqe → Lifecycle
deriving Repr, DecidableEq

/-- The slot table (`slab::Slab<Lifecycle<C>>`): slot id `i` maps to the
`i`-th element; `none` is a vacant slot (also out of range). -/
abbrev Slab := List (Option Lifecycle)

/-- Reading slot `i` of the table; `none` when the slot is vacant or out of
range (an index expression `guard[i]` on such a key is a Rust panic). -/
def slabGet : Slab → Nat → Option Lifecycle
  | [], _ => none
  | h :: _, 0 => h
  | _ :: t, n + 1 => slabGet t n

/-- Overwriting occupied slot `i` in place (`*lifecycle = ...`). -/
def slabSet : Slab → Nat → Lifecycle → Slab
  | [], _, _ => []
  | _ :: t, 0, v => some v :: t
  | h :: t, n + 1, v => h :: slabSet t n v

/-- Vacating slot `i` (the effect of `slab.remove(i)` on the table). -/
def slabRemoveAt : Slab → Nat → Slab
  | [], _ => []
  | _ :: t, 0 => none :: t
  | h :: t, n + 1 => h :: slabRemoveAt t n

/-- Modelled from the spec: `slab.insert(v)` stores `v` at a vacant slot id
(reused after removal) and returns that id with the updated table. -/
def slabInsert : Slab → Lifecycle → Nat × Slab
  | [], v => (0, [some v])
  | none :: t, v => (0, some v :: t)
  | some h :: t, v =>
    let r := slabInsert t v
    (r.1 + 1, some h :: r.2)

/-- `std::task::Poll`. -/
inductive Poll where
  | Pending : Poll
  | Ready : Cqe → Poll
deriving Repr, DecidableEq

/-- Embedding of `OpInner::poll` (lib.rs lines 63-83): `Submitted` stores the
waker and becomes `Waiting`; `Waiting` overwrites the stored waker; `Completed`
returns a clone of the stored entry. `none` models the panic of indexing a
vacant slot. -/
def pollInner (s : Slab) (index : Nat) (waker : Nat) : Option (Slab × Poll) :=
  match slabGet s index with
  | none => none
  | some .Submitted => some (slabSet s index (.Waiting waker), .Pending)
  | some (.Waiting _) => some (slabSet s index (.Waiting waker), .Pending)
  | some (.Completed cqe) => some (s, .Ready cqe)

/-- Embedding of `OpInner::drop` (lib.rs lines 85-94): `slab.remove(index)`
followed by the assertion that the removed lifecycle is `Completed`, returning
the stored completion. `none` models the panic — both the explicit
`panic!("Op drop occured before completion")` and the invalid-key panic of
`remove` on a vacant slot. -/
def dropInner (s : Slab) (index : Nat) : Option (Slab × Cqe) :=
  match slabGet s index with
  | some (.Completed cqe) => some (slabRemoveAt s index, cqe)
  | _ => none

/-- Outcome of `Op::drop`. -/
inductive DropOutcome where
  | removedNow : Slab → DropOutcome
  | detached : Slab → DropOutcome
deriving Repr, DecidableEq

/-- Embedding of `Op::drop` (lib.rs lines 42-56): if the slot is `Completed`
the inner handle is dropped in place, removing the slot; otherwise the inner
handle is moved into a freshly spawned detached task and the table is left
untouched. `none` models the panic of indexing a vacant slot. -/
def opDrop (s : Slab) (index : Nat) : Option DropOutcome :=
  match slabGet s index with
  | none => none
  | some (.Completed _) =>
    match dropInner s index with
    | none => none
    | some (s', _) => some (.removedNow s')
  | some _ => some (.detached s)

/-- One scheduler poll of the detached waiter task `async { inner.await }`
spawned by `Op::drop`: poll the orphaned inner future; when it is `Pending`
the task stays parked, and when it is `Ready` the task body ends, so
`OpInner::drop` runs and removes the slot. The boolean reports whether the
task finished. -/
def waiterStep (s : Slab) (index : Nat) (waker : Nat) : Option (Slab × Bool) :=
  match pollInner s index waker with
  | none => none
  | some (s', .Pending) => some (s', false)
  | some (s', .Ready _) =>
    match dropInner s' index with
    | none => none
    | some (s'', _) => some (s'', true)

/-- One iteration of the `handle_cqe` loop (lib.rs lines 154-168) for a popped
completion `cqe`: look the slot up by correlation tag and transition it.
Returns the table, the wakers woken, and the anomaly reports printed (each
report carries the already-stored entry, whose fields the `println!` prints).
`none` models the panic of indexing a vacant slot. -/
def handleOne (s : Slab) (cqe : Cqe) : Option (Slab × List Nat × List Cqe) :=
  match slabGet s cqe.user_data with
  | none => none
  | some .Submitted => some (slabSet s cqe.user_data (.Completed cqe), [], [])
  | some (.Waiting w) => some (slabSet s cqe.user_data (.Completed cqe), [w], [])
  | some (.Completed old) => some (s, [], [old])

/-- Embedding of `IoUringAsync::handle_cqe` (lib.rs lines 152-170): drain
every currently available completion in order, accumulating woken wakers and
anomaly reports. -/
def handleCqe (s : Slab) : List Cqe → Option (Slab × List Nat × List Cqe)
  | [] => some (s, [], [])
  | c :: rest =>
    match handleOne s c with
    | none => none
    | some (s', ws, reps) =>
      match handleCqe s' rest with
      | none => none
      | some (s'', ws', reps') => some (s'', ws ++ ws', reps ++ reps')

-- Basic slot-table lemmas.

theorem slabGet_some_lt {s : Slab} {i : Nat} {v : Lifecycle}
    (h : slabGet s i = some v) : i < s.length := by
  induction s generalizing i with
  | nil => simp [slabGet] at h
  | cons hd t ih =>
    cases i with
    | zero => simp
    | succ n =>
      simp only [slabGet] at h
      exact Nat.succ_lt_succ (ih h)

theorem slabGet_slabSet_self {s : Slab} {i : Nat} (v : Lifecycle)
    (h : i < s.length) : slabGet (slabSet s i v) i = some v := by
  induction s generalizing i with
  | nil => simp at h
  | cons hd t ih =>
    cases i with
    | zero => rfl
    | succ n => exact ih (Nat.lt_of_succ_lt_succ h)

theorem slabGet_slabSet_ne {s : Slab} {i j : Nat} (v : Lifecycle)
    (h : j ≠ i) : slabGet (slabSet s i v) j = slabGet s j := by
  induction s generalizing i j with
  | nil => cases i <;> rfl
  | cons hd t ih =>
    cases i with
    | zero =>
      cases j with
      | zero => exact absurd rfl h
      | succ m => rfl
    | succ n =>
      cases j with
      | zero => rfl
      | succ m => exact ih (fun e => h (by rw [e]))

theorem slabGet_slabRemoveAt_self (s : Slab) (i : Nat) :
    slabGet (slabRemoveAt s i) i = none := by
  induction s generalizing i with
  | nil => cases i <;> rfl
  | cons hd t ih =>
    cases i with
    | zero => rfl
    | succ n => exact ih n

theorem slabGet_slabRemoveAt_ne {s : Slab} {i j : Nat} (h : j ≠ i) :
    slabGet (slabRemoveAt s i) j = slabGet s j := by
  induction s generalizing i j with
  | nil => cases i <;> rfl
  | cons hd t ih =>
    cases i with
    | zero =>
      cases j with
      | zero => exact absurd rfl h
      | succ m => rfl
    | succ n =>
      cases j with
      | zero => rfl
      | succ m => exact ih (fun e => h (by rw [e]))

/-- C2: Poll contract of the Op future: polling with waker `w` stores `w` and
returns `Pending` when the slot is `Submitted`; overwrites the stored waker
with `w` and returns `Pending` when it is `Waiting`; and returns `Ready` with
the stored completion when it is `Completed`. -/
theorem poll_contract (s : Slab) (i w : Nat) :
    (slabGet s i = some .Submitted →
      pollInner s i w = some (slabSet s i (.Waiting w), .Pending) ∧
      slabGet (slabSet s i (.Waiting w)) i = some (.Waiting w)) ∧
    (∀ w0, slabGet s i = some (.Waiting w0) →
      pollInner s i w = some (slabSet s i (.Waiting w), .Pending) ∧
      slabGet (slabSet s i (.Waiting w)) i = some (.Waiting w)) ∧
    (∀ c, slabGet s i = some (.Completed c) →
      pollInner s i w = some (s, .Ready c)) := by
  refine ⟨fun h => ?_, fun w0 h => ?_, fun c h => ?_⟩
  · exact ⟨by simp [pollInner, h], slabGet_slabSet_self _ (slabGet_some_lt h)⟩
  · exact ⟨by simp [pollInner, h], slabGet_slabSet_self _ (slabGet_some_lt h)⟩
  · simp [pollInner, h]

/-- Witness for C2 at a concrete one-slot table. -/
theorem poll_contract_witness :
    pollInner [some .Submitted] 0 7 = some ([some (.Waiting 7)], .Pending) :=
  ((poll_contract [some .Submitted] 0 7).1 rfl).1

/-- C1: Cancellation protocol on early destruction: dropping an Op whose slot
is `Submitted` or `Waiting` leaves the table untouched (no synchronous
removal) and detaches a waiter; the detached waiter's polls keep the slot
present while it is not yet `Completed` and remove it exactly when it is;
dropping an Op whose slot is already `Completed` removes the slot at once
with no task spawned. -/
theorem cancel_on_drop (s : Slab) (i w : Nat) :
    ((slabGet s i = some .Submitted ∨ (∃ w0, slabGet s i = some (.Waiting w0))) →
      opDrop s i = some (.detached s)) ∧
    ((slabGet s i = some .Submitted ∨ (∃ w0, slabGet s i = some (.Waiting w0))) →
      waiterStep s i w = some (slabSet s i (.Waiting w), false) ∧
      slabGet (slabSet s i (.Waiting w)) i = some (.Waiting w)) ∧
    (∀ c, slabGet s i = some (.Completed c) →
      opDrop s i = some (.removedNow (slabRemoveAt s i)) ∧
      slabGet (slabRemoveAt s i) i = none ∧
      waiterStep s i w = some (slabRemoveAt s i, true)) := by
  refine ⟨fun h => ?_, fun h => ?_, fun c h => ?_⟩
  · rcases h with h | ⟨w0, h⟩ <;> simp [opDrop, h]
  · rcases h with h | ⟨w0, h⟩ <;>
      exact ⟨by simp [waiterStep, pollInner, h],
        slabGet_slabSet_self _ (slabGet_some_lt h)⟩
  · exact ⟨by simp [opDrop, dropInner, h],
      slabGet_slabRemoveAt_self s i,
      by simp [waiterStep, pollInner, dropInner, h]⟩

/-- Witness for C1: dropping over a `Waiting` slot detaches and keeps the
slot; over a `Completed` slot it removes at once. -/
theorem cancel_on_drop_witness :
    opDrop [some (.Waiting 3)] 0 = some (.detached [some (.Waiting 3)]) ∧
    opDrop [some (.Completed ⟨0, 1⟩)] 0 = some (.removedNow [none]) :=
  ⟨(cancel_on_drop [some (.Waiting 3)] 0 0).1 (Or.inr ⟨3, rfl⟩),
    ((cancel_on_drop [some (.Completed ⟨0, 1⟩)] 0 0).2.2 ⟨0, 1⟩ rfl).1⟩

/-- C3: Drain transition: a popped completion whose tag names a `Submitted`
slot turns it into `Completed` with no wake; one naming a `Waiting` slot turns
it into `Completed` and wakes exactly the stored waker; in both cases every
other slot is untouched. -/
theorem drain_transition (s : Slab) (c : Cqe) :
    (slabGet s c.user_data = some .Submitted →
      handleOne s c = some (slabSet s c.user_data (.Completed c), [], []) ∧
      slabGet (slabSet s c.user_data (.Completed c)) c.user_data =
        some (.Completed c)) ∧
    (∀ w, slabGet s c.user_data = some (.Waiting w) →
      handleOne s c = some (slabSet s c.user_data (.Completed c), [w], []) ∧
      slabGet (slabSet s c.user_data (.Completed c)) c.user_data =
        some (.Completed c)) ∧
    (∀ j, j ≠ c.user_data →
      slabGet (slabSet s c.user_data (.Completed c)) j = slabGet s j) := by
  refine ⟨fun h => ?_, fun w h => ?_, fun j hj => slabGet_slabSet_ne _ hj⟩
  · exact ⟨by simp [handleOne, h], slabGet_slabSet_self _ (slabGet_some_lt h)⟩
  · exact ⟨by simp [handleOne, h], slabGet_slabSet_self _ (slabGet_some_lt h)⟩

/-- Witness for C3 on a two-slot table: completing the `Waiting` slot wakes
its stored waker and leaves the other slot alone. -/
theorem drain_transition_witness :
    handleOne [some .Submitted, some (.Waiting 5)] ⟨1, 0⟩ =
      some ([some .Submitted, some (.Completed ⟨1, 0⟩)], [5], []) :=
  ((drain_transition [some .Submitted, some (.Waiting 5)] ⟨1, 0⟩).2.1 5 rfl).1

/-- C4: Duplicate-completion anomaly: a popped completion whose tag names an
already-`Completed` slot is discarded — the table (hence the stored result) is
unchanged, no waker is woken, exactly one anomaly report (of the stored entry)
is printed, and the drain does not panic. -/
theorem duplicate_completion (s : Slab) (c old : Cqe)
    (h : slabGet s c.user_data = some (.Completed old)) :
    handleOne s c = some (s, [], [old]) := by
  simp [handleOne, h]

/-- Witness for C4: a duplicate completion for slot 0 is reported and
discarded. -/
theorem duplicate_completion_witness :
    handleOne [some (.Completed ⟨0, 4⟩)] ⟨0, 9⟩ =
      some ([some (.Completed ⟨0, 4⟩)], [], [⟨0, 4⟩]) :=
  duplicate_completion [some (.Completed ⟨0, 4⟩)] ⟨0, 9⟩ ⟨0, 4⟩ rfl

/-- C7: Removal succeeds, returning the stored completion, exactly when the
slot is `Completed`; destroying the inner handle over a `Submitted` or
`Waiting` slot panics. -/
theorem remove_iff_completed (s : Slab) (i : Nat) :
    (∀ c, slabGet s i = some (.Completed c) →
      dropInner s i = some (slabRemoveAt s i, c)) ∧
    ((∃ r, dropInner s i = some r) ↔
      (∃ c, slabGet s i = some (.Completed c))) ∧
    ((slabGet s i = some .Submitted ∨ (∃ w, slabGet s i = some (.Waiting w))) →
      dropInner s i = none) := by
  refine ⟨fun c h => by simp [dropInner, h], ?_, fun h => ?_⟩
  · constructor
    · rintro ⟨r, hr⟩
      unfold dropInner at hr
      rcases hg : slabGet s i with _ | l
      · rw [hg] at hr; exact absurd hr (by simp)
      · cases l with
        | Submitted => rw [hg] at hr; exact absurd hr (by simp)
        | Waiting w => rw [hg] at hr; exact absurd hr (by simp)
        | Completed c => exact ⟨c, rfl⟩
    · rintro ⟨c, hc⟩
      exact ⟨(slabRemoveAt s i, c), by simp [dropInner, hc]⟩
  · rcases h with h | ⟨w, h⟩ <;> simp [dropInner, h]

/-- Witness for C7: removal of a `Completed` slot returns its payload; removal
of a `Submitted` slot panics. -/
theorem remove_iff_completed_witness :
    dropInner [some (.Completed ⟨0, 2⟩)] 0 = some ([none], ⟨0, 2⟩) ∧
    dropInner [some .Submitted] 0 = none :=
  ⟨(remove_iff_completed [some (.Completed ⟨0, 2⟩)] 0).1 ⟨0, 2⟩ rfl,
    (remove_iff_completed [some .Submitted] 0).2.2 (Or.inl rfl)⟩

/-- Polling the same slot once per waker in `ws`, threading the table and
collecting each poll's answer. -/
def pollSeq (s : Slab) (i : Nat) : List Nat → Option (Slab × List Poll)
  | [] => some (s, [])
  | w :: ws =>
    match pollInner s i w with
    | none => none
    | some (s', p) =>
      match pollSeq s' i ws with
      | none => none
      | some (s'', ps) => some (s'', p :: ps)

/-- C8: Idempotence of polling a completed Op: every poll of a `Completed`
slot answers `Ready` with the same stored entry and leaves the whole table
unchanged, for any number of polls with any wakers. -/
theorem completed_poll_idempotent (s : Slab) (i : Nat) (c : Cqe)
    (h : slabGet s i = some (.Completed c)) :
    ∀ ws : List Nat, pollSeq s i ws = some (s, ws.map fun _ => .Ready c) := by
  intro ws
  induction ws with
  | nil => rfl
  | cons w ws ih => simp [pollSeq, pollInner, h, ih]

/-- Witness for C8: three successive polls of a completed slot all answer the
same result and do not mutate the table. -/
theorem completed_poll_idempotent_witness :
    pollSeq [some (.Completed ⟨0, 3⟩)] 0 [1, 2, 3] =
      some ([some (.Completed ⟨0, 3⟩)],
        [.Ready ⟨0, 3⟩, .Ready ⟨0, 3⟩, .Ready ⟨0, 3⟩]) :=
  completed_poll_idempotent [some (.Completed ⟨0, 3⟩)] 0 ⟨0, 3⟩ rfl [1, 2, 3]

/-- Modelled from the spec: the submission/completion transport consumed by
the engine. `sq` holds queued submission entries up to capacity `cap`;
`kernel` holds entries already flushed; `broken` makes the flush-to-kernel
primitive fail. -/
structure Uring where
  cap : Nat
  sq : List Sqe
  kernel : List Sqe
  broken : Bool
deriving Repr, DecidableEq

/-- The transport-level error of the flush-to-kernel primitive. -/
inductive TransportError where
  | flushFailed : TransportError
deriving Repr, DecidableEq

/-- Modelled from the spec: `submission_shared().push(&entry)` — enqueue on
the submission side, failing (`none`) exactly when the queue is full. -/
def sqPush (u : Uring) (e : Sqe) : Option Uring :=
  if u.sq.length < u.cap then some { u with sq := u.sq ++ [e] } else none

/-- Modelled from the spec: `IoUring::submit()` — flush all queued submission
entries to the kernel and return their count, or a transport error when the
primitive fails. -/
def uringSubmit (u : Uring) : Except TransportError (Uring × Nat) :=
  if u.broken then Except.error .flushFailed
  else Except.ok ({ u with sq := [], kernel := u.kernel ++ u.sq }, u.sq.length)

/-- The engine: the transport plus the shared slot table (lib.rs 99-102). -/
structure Engine where
  uring : Uring
  slab : Slab
deriving Repr, DecidableEq

/-- Embedding of `IoUringAsync::submit` (lib.rs lines 173-175): returns the
transport flush result unchanged. -/
def submit (eng : Engine) : Except TransportError (Engine × Nat) :=
  match uringSubmit eng.uring with
  | Except.error err => Except.error err
  | Except.ok (u', n) => Except.ok ({ eng with uring := u' }, n)

/-- Outcome of the enqueue retry loop in `push`: the entry was enqueued, or
`submit().unwrap()` panicked on a transport error, or the given fuel ran out
(the unbounded `while` loop did not terminate within `fuel` attempts). -/
inductive LoopOut where
  | pushed : Uring → LoopOut
  | crashed : LoopOut
  | spun : LoopOut
deriving Repr, DecidableEq

/-- The retry loop of `push` (lib.rs line 141-143):
`while sq.push(&entry).is_err() { self.uring.submit().unwrap(); }`. -/
def pushLoop (fuel : Nat) (u : Uring) (e : Sqe) : LoopOut :=
  match fuel with
  | 0 => .spun
  | f + 1 =>
    match sqPush u e with
    | some u' => .pushed u'
    | none =>
      match uringSubmit u with
      | Except.error _ => .crashed
      | Except.ok (u', _) => pushLoop f u' e

/-- Result of `push`: the new engine state and the new Op's slot index, or a
panic, or fuel exhaustion of the retry loop. -/
inductive PushResult where
  | ok : Engine → Nat → PushResult
  | crashed : PushResult
  | spun : PushResult
deriving Repr, DecidableEq

/-- Embedding of `IoUringAsync::push` (lib.rs lines 137-150): allocate a
`Submitted` slot, overwrite the entry's correlation tag with the slot index,
then enqueue with the flush-and-retry loop. -/
def push (fuel : Nat) (eng : Engine) (entry : Sqe) : PushResult :=
  let r := slabInsert eng.slab .Submitted
  let entry' := Sqe.setUserData entry r.1
  match pushLoop fuel eng.uring entry' with
  | .pushed u' => .ok { uring := u', slab := r.2 } r.1
  | .crashed => .crashed
  | .spun => .spun

-- Slot-insertion lemmas.

theorem slabGet_slabInsert_fresh (s : Slab) (v : Lifecycle) :
    slabGet s (slabInsert s v).1 = none := by
  induction s with
  | nil => rfl
  | cons hd t ih =>
    cases hd with
    | none => rfl
    | some x => simpa [slabInsert, slabGet] using ih

theorem slabGet_slabInsert_self (s : Slab) (v : Lifecycle) :
    slabGet (slabInsert s v).2 (slabInsert s v).1 = some v := by
  induction s with
  | nil => rfl
  | cons hd t ih =>
    cases hd with
    | none => rfl
    | some x => simpa [slabInsert, slabGet] using ih

theorem slabGet_slabInsert_ne (s : Slab) (v : Lifecycle) {j : Nat}
    (h : j ≠ (slabInsert s v).1) : slabGet (slabInsert s v).2 j = slabGet s j := by
  induction s generalizing j with
  | nil =>
    cases j with
    | zero => exact absurd rfl h
    | succ m => rfl
  | cons hd t ih =>
    cases hd with
    | none =>
      cases j with
      | zero => exact absurd rfl h
      | succ m => rfl
    | some x =>
      cases j with
      | zero => rfl
      | succ m =>
        simp only [slabInsert, slabGet]
        exact ih (fun e => h (by simp [slabInsert, e]))

-- Behaviour of the retry loop on an unbroken transport with capacity.

theorem pushLoop_ok (u : Uring) (e : Sqe) (fuel : Nat) (hcap : 1 ≤ u.cap)
    (hok : u.broken = false) (hfuel : 2 ≤ fuel) :
    ∃ u', pushLoop fuel u e = .pushed u' ∧
      (u'.sq ++ u'.kernel).Perm (e :: (u.sq ++ u.kernel)) := by
  obtain ⟨f, rfl⟩ : ∃ f, fuel = f + 2 := ⟨fuel - 2, by omega⟩
  by_cases hfull : u.sq.length < u.cap
  · refine ⟨{ u with sq := u.sq ++ [e] }, ?_, ?_⟩
    · simp [pushLoop, sqPush, hfull]
    · show List.Perm ((u.sq ++ [e]) ++ u.kernel) (e :: (u.sq ++ u.kernel))
      have h3 : (u.sq ++ [e]) ++ u.kernel = u.sq ++ e :: u.kernel := by simp
      rw [h3]
      exact List.perm_middle
  · refine ⟨{ u with sq := [e], kernel := u.kernel ++ u.sq }, ?_, ?_⟩
    · have h1 : sqPush u e = none := by simp [sqPush, hfull]
      have h2 : 0 < u.cap := hcap
      simp [pushLoop, h1, uringSubmit, hok, sqPush, h2, hfull]
    · show List.Perm ([e] ++ (u.kernel ++ u.sq)) (e :: (u.sq ++ u.kernel))
      have h3 : [e] ++ (u.kernel ++ u.sq) = e :: (u.kernel ++ u.sq) := rfl
      rw [h3]
      exact List.Perm.cons e List.perm_append_comm

/-- C6: Push contract: on a transport with nonzero capacity and a working
flush primitive, `push` succeeds (it has no queue-full failure), having
allocated a fresh slot in `Submitted` state (the slot was vacant before and is
`Submitted` in the returned state, all other slots untouched), tagged the
entry with that slot's id, and enqueued the tagged entry exactly once: the
queued-plus-flushed entries afterwards are a permutation of the ones before
plus the tagged entry. -/
theorem push_contract (eng : Engine) (entry : Sqe) (fuel : Nat)
    (hcap : 1 ≤ eng.uring.cap) (hok : eng.uring.broken = false)
    (hfuel : 2 ≤ fuel) :
    ∃ eng' index,
      push fuel eng entry = .ok eng' index ∧
      (Sqe.setUserData entry index).user_data = index ∧
      slabGet eng.slab index = none ∧
      slabGet eng'.slab index = some .Submitted ∧
      (∀ j, j ≠ index → slabGet eng'.slab j = slabGet eng.slab j) ∧
      (eng'.uring.sq ++ eng'.uring.kernel).Perm
        (Sqe.setUserData entry index :: (eng.uring.sq ++ eng.uring.kernel)) := by
  obtain ⟨u', hloop, hperm⟩ :=
    pushLoop_ok eng.uring (Sqe.setUserData entry (slabInsert eng.slab .Submitted).1)
      fuel hcap hok hfuel
  refine ⟨{ uring := u', slab := (slabInsert eng.slab .Submitted).2 },
    (slabInsert eng.slab .Submitted).1, ?_, rfl,
    slabGet_slabInsert_fresh eng.slab .Submitted,
    slabGet_slabInsert_self eng.slab .Submitted,
    fun j hj => slabGet_slabInsert_ne eng.slab .Submitted hj, hperm⟩
  simp [push, hloop]

/-- Witness for C6 on a concrete empty engine with capacity 2. -/
theorem push_contract_witness :
    ∃ eng' index,
      push 2
        { uring := { cap := 2, sq := [], kernel := [], broken := false },
          slab := [] }
        { payload := 7, user_data := 9 } = .ok eng' index ∧
      (Sqe.setUserData { payload := 7, user_data := 9 } index).user_data = index ∧
      slabGet [] index = none ∧
      slabGet eng'.slab index = some .Submitted ∧
      (∀ j, j ≠ index → slabGet eng'.slab j = slabGet [] j) ∧
      (eng'.uring.sq ++ eng'.uring.kernel).Perm
        (Sqe.setUserData { payload := 7, user_data := 9 } index :: ([] ++ [])) :=
  push_contract
    { uring := { cap := 2, sq := [], kernel := [], broken := false },
      slab := [] }
    { payload := 7, user_data := 9 } 2 (by decide) rfl (by decide)

/-- C5 counterexample: at a concrete broken transport with a full submission
queue, `push` does not hand a `TransportError` back to its caller as an error
result — the `submit().unwrap()` inside its retry loop panics, so the outcome
is a crash (and `push`'s result type has no error channel at all). -/
theorem transport_error_push_counterexample :
    push 2
      { uring :=
          { cap := 1, sq := [{ payload := 0, user_data := 0 }], kernel := [],
            broken := true },
        slab := [] }
      { payload := 5, user_data := 0 } = .crashed := by
  decide

/-- C5 (amended): when the flush-to-kernel primitive fails, `submit` returns
the `TransportError` to its caller as an error result; `push`, whose return
type has no error channel, does not recover either — inside its full-queue
retry loop it panics on the failed flush (`unwrap`). -/
theorem transport_error_propagation (eng : Engine)
    (h : eng.uring.broken = true) :
    submit eng = Except.error .flushFailed ∧
    (∀ entry fuel, 1 ≤ fuel → eng.uring.cap ≤ eng.uring.sq.length →
      push fuel eng entry = .crashed) := by
  constructor
  · simp [submit, uringSubmit, h]
  · intro entry fuel hfuel hfull
    obtain ⟨f, rfl⟩ : ∃ f, fuel = f + 1 := ⟨fuel - 1, by omega⟩
    have h1 : sqPush eng.uring
        (Sqe.setUserData entry (slabInsert eng.slab .Submitted).1) = none := by
      simp [sqPush]
      omega
    simp [push, pushLoop, h1, uringSubmit, h]

/-- Witness for C5's amended theorem at a concrete broken engine. -/
theorem transport_error_propagation_witness :
    submit
      { uring :=
          { cap := 1, sq := [{ payload := 1, user_data := 0 }], kernel := [],
            broken := true },
        slab := [] } = Except.error .flushFailed ∧
    push 1
      { uring :=
          { cap := 1, sq := [{ payload := 1, user_data := 0 }], kernel := [],
            broken := true },
        slab := [] }
      { payload := 6, user_data := 0 } = .crashed :=
  ⟨(transport_error_propagation
      { uring :=
          { cap := 1, sq := [{ payload := 1, user_data := 0 }], kernel := [],
            broken := true },
        slab := [] } rfl).1,
    (transport_error_propagation
      { uring :=
          { cap := 1, sq := [{ payload := 1, user_data := 0 }], kernel := [],
            broken := true },
        slab := [] } rfl).2 { payload := 6, user_data := 0 } 1 (by decide)
      (by decide)⟩

-- Occupancy is preserved by handling one completion.

theorem isSome_slabGet_slabSet {s : Slab} {i : Nat} {x : Lifecycle}
    (v : Lifecycle) (h : slabGet s i = some x) (j : Nat) :
    (slabGet (slabSet s i v) j).isSome = (slabGet s j).isSome := by
  by_cases hj : j = i
  · subst hj
    rw [slabGet_slabSet_self v (slabGet_some_lt h), h]
    rfl
  · rw [slabGet_slabSet_ne v hj]

theorem handleOne_none_iff {s s' : Slab} {c : Cqe} {ws : List Nat}
    {reps : List Cqe} (h : handleOne s c = some (s', ws, reps)) (j : Nat) :
    (slabGet s' j = none ↔ slabGet s j = none) := by
  rcases hg : slabGet s c.user_data with _ | l
  · simp [handleOne, hg] at h
  · cases l with
    | Submitted =>
      simp [handleOne, hg] at h
      obtain ⟨rfl, -, -⟩ := h
      have := isSome_slabGet_slabSet (.Completed c) hg j
      constructor <;> intro he <;>
        simpa [he] using (by rw [he] at this; simpa using this.symm)
    | Waiting w =>
      simp [handleOne, hg] at h
      obtain ⟨rfl, -, -⟩ := h
      have := isSome_slabGet_slabSet (.Completed c) hg j
      constructor <;> intro he <;>
        simpa [he] using (by rw [he] at this; simpa using this.symm)
    | Completed old =>
      simp [handleOne, hg] at h
      obtain ⟨rfl, -, -⟩ := h
      exact Iff.rfl

theorem handleOne_some_of_occupied {s : Slab} {c : Cqe} {l : Lifecycle}
    (h : slabGet s c.user_data = some l) :
    ∃ s' ws reps, handleOne s c = some (s', ws, reps) := by
  cases l with
  | Submitted =>
    exact ⟨slabSet s c.user_data (.Completed c), [], [], by simp [handleOne, h]⟩
  | Waiting w =>
    exact ⟨slabSet s c.user_data (.Completed c), [w], [], by simp [handleOne, h]⟩
  | Completed old => exact ⟨s, [], [old], by simp [handleOne, h]⟩

theorem handleOne_none_of_vacant {s : Slab} {c : Cqe}
    (h : slabGet s c.user_data = none) : handleOne s c = none := by
  simp [handleOne, h]

/-- C10: the drain loop panics exactly when some popped completion carries a
correlation tag that names no occupied slot: there is no error branch for an
unknown tag, and the drain completes without panic precisely when every
popped tag names an occupied slot. -/
theorem drain_unknown_tag (s : Slab) (cqes : List Cqe) :
    handleCqe s cqes = none ↔ ∃ c ∈ cqes, slabGet s c.user_data = none := by
  induction cqes generalizing s with
  | nil => simp [handleCqe]
  | cons c rest ih =>
    constructor
    · intro h
      rcases h1 : handleOne s c with _ | ⟨s', ws, reps⟩
      · refine ⟨c, by simp, ?_⟩
        rcases hg : slabGet s c.user_data with _ | l
        · rfl
        · obtain ⟨s', ws, reps, hsome⟩ := handleOne_some_of_occupied hg
          rw [h1] at hsome
          cases hsome
      · simp only [handleCqe, h1] at h
        rcases h2 : handleCqe s' rest with _ | r
        · obtain ⟨c', hc', hnone⟩ := (ih s').1 h2
          exact ⟨c', by simp [hc'], (handleOne_none_iff h1 c'.user_data).1 hnone⟩
        · rw [h2] at h
          simp at h
    · rintro ⟨c', hc', hnone⟩
      rcases List.mem_cons.1 hc' with rfl | hrest
      · simp [handleCqe, handleOne_none_of_vacant hnone]
      · rcases h1 : handleOne s c with _ | ⟨s', ws, reps⟩
        · simp [handleCqe, h1]
        · have : handleCqe s' rest = none :=
            (ih s').2 ⟨c', hrest, (handleOne_none_iff h1 c'.user_data).2 hnone⟩
          simp [handleCqe, h1, this]

/-- Witness for C10: a completion tagged 1 against a table whose only slot is
0 makes the drain panic. -/
theorem drain_unknown_tag_witness :
    handleCqe [some .Submitted] [{ user_data := 1, result := 0 }] = none :=
  (drain_unknown_tag [some .Submitted] [{ user_data := 1, result := 0 }]).2
    ⟨{ user_data := 1, result := 0 }, by simp, rfl⟩

/-- A scheduler step acting on the slot table: a poll of the Op at slot `i`
with waker `w`, or the drain loop handling one popped completion. -/
inductive Step where
  | pollStep : Nat → Nat → Step
  | cqeStep : Cqe → Step
deriving Repr, DecidableEq

/-- Effect of one step on the slot table (`none` = panic). -/
def runStep (s : Slab) : Step → Option Slab
  | .pollStep i w =>
    match pollInner s i w with
    | none => none
    | some r => some r.1
  | .cqeStep c =>
    match handleOne s c with
    | none => none
    | some r => some r.1

/-- The table states along a run: the initial state followed by the state
after each step; `none` when some step panics. -/
def runTrace (s : Slab) : List Step → Option (List Slab)
  | [] => some [s]
  | st :: rest =>
    match runStep s st with
    | none => none
    | some s' =>
      match runTrace s' rest with
      | none => none
      | some tr => some (s :: tr)

/-- The reachability order on a single slot's stored state: `Submitted` may
move anywhere, `Waiting` may stay `Waiting` or reach `Completed` but never
regress to `Submitted`, `Completed` is absorbing with an unchanged payload,
and vacant stays vacant. -/
def lcLE : Option Lifecycle → Option Lifecycle → Bool
  | none, none => true
  | some .Submitted, some _ => true
  | some (.Waiting _), some (.Waiting _) => true
  | some (.Waiting _), some (.Completed _) => true
  | some (.Completed c), some (.Completed c') => c == c'
  | _, _ => false

/-- Whether a slot currently stores a `Completed` lifecycle. -/
def isCompletedSlot : Option Lifecycle → Bool
  | some (.Completed _) => true
  | _ => false

/-- Adjacent rises (`false` followed by `true`) in a boolean trace: the
number of transitions into the completed state along a run. -/
def countRises : List Bool → Nat
  | false :: true :: t => countRises (true :: t) + 1
  | _ :: t => countRises t
  | [] => 0

theorem lcLE_refl (a : Option Lifecycle) : lcLE a a = true := by
  rcases a with _ | l
  · rfl
  · cases l <;> simp [lcLE]

theorem runStep_lcLE {s s' : Slab} {st : Step} (h : runStep s st = some s')
    (j : Nat) : lcLE (slabGet s j) (slabGet s' j) = true := by
  cases st with
  | pollStep i w =>
    rcases hg : slabGet s i with _ | l
    · simp [runStep, pollInner, hg] at h
    · cases l with
      | Submitted =>
        simp [runStep, pollInner, hg] at h
        subst h
        by_cases hj : j = i
        · subst hj
          rw [hg, slabGet_slabSet_self _ (slabGet_some_lt hg)]
          rfl
        · rw [slabGet_slabSet_ne _ hj]
          exact lcLE_refl _
      | Waiting w0 =>
        simp [runStep, pollInner, hg] at h
        subst h
        by_cases hj : j = i
        · subst hj
          rw [hg, slabGet_slabSet_self _ (slabGet_some_lt hg)]
          rfl
        · rw [slabGet_slabSet_ne _ hj]
          exact lcLE_refl _
      | Completed c =>
        simp [runStep, pollInner, hg] at h
        subst h
        exact lcLE_refl _
  | cqeStep c =>
    rcases hg : slabGet s c.user_data with _ | l
    · simp [runStep, handleOne, hg] at h
    · cases l with
      | Submitted =>
        simp [runStep, handleOne, hg] at h
        subst h
        by_cases hj : j = c.user_data
        · subst hj
          rw [hg, slabGet_slabSet_self _ (slabGet_some_lt hg)]
          rfl
        · rw [slabGet_slabSet_ne _ hj]
          exact lcLE_refl _
      | Waiting w =>
        simp [runStep, handleOne, hg] at h
        subst h
        by_cases hj : j = c.user_data
        · subst hj
          rw [hg, slabGet_slabSet_self _ (slabGet_some_lt hg)]
          rfl
        · rw [slabGet_slabSet_ne _ hj]
          exact lcLE_refl _
      | Completed old =>
        simp [runStep, handleOne, hg] at h
        subst h
        exact lcLE_refl _

theorem runTrace_head {s : Slab} {steps : List Step} {tr : List Slab}
    (h : runTrace s steps = some tr) : tr.head? = some s := by
  cases steps with
  | nil =>
    simp [runTrace] at h
    subst h
    rfl
  | cons st rest =>
    rcases h1 : runStep s st with _ | s'
    · simp [runTrace, h1] at h
    · rcases h2 : runTrace s' rest with _ | tr'
      · simp [runTrace, h1, h2] at h
      · simp [runTrace, h1, h2] at h
        subst h
        rfl

theorem runTrace_chain {s : Slab} {steps : List Step} {tr : List Slab}
    (h : runTrace s steps = some tr) (j : Nat) :
    List.Chain' (fun a b => lcLE (slabGet a j) (slabGet b j) = true) tr := by
  induction steps generalizing s tr with
  | nil =>
    simp [runTrace] at h
    subst h
    simp
  | cons st rest ih =>
    rcases h1 : runStep s st with _ | s'
    · simp [runTrace, h1] at h
    · rcases h2 : runTrace s' rest with _ | tr'
      · simp [runTrace, h1, h2] at h
      · simp [runTrace, h1, h2] at h
        subst h
        refine List.chain'_cons'.2 ⟨fun b hb => ?_, ih h2⟩
        have hb' : b = s' := by
          have := runTrace_head h2
          rw [this] at hb
          exact (Option.some_inj.1 hb).symm
        subst hb'
        exact runStep_lcLE h1 j

theorem countRises_head_true : ∀ {t : List Bool},
    List.Chain' (fun x y : Bool => x = true → y = true) (true :: t) →
    countRises (true :: t) = 0 := by
  intro t
  induction t with
  | nil => intro _; rfl
  | cons b t' ih =>
    intro hch
    obtain ⟨hr, hch'⟩ := List.chain'_cons.1 hch
    have hb : b = true := hr rfl
    subst hb
    have he : countRises (true :: true :: t') = countRises (true :: t') := rfl
    rw [he]
    exact ih hch'

theorem countRises_le_one : ∀ (l : List Bool),
    List.Chain' (fun x y : Bool => x = true → y = true) l →
    countRises l ≤ 1 := by
  intro l
  induction l with
  | nil => intro _; exact Nat.zero_le 1
  | cons a t ih =>
    intro hch
    cases t with
    | nil => cases a <;> exact Nat.zero_le 1
    | cons b t' =>
      obtain ⟨hr, hch'⟩ := List.chain'_cons.1 hch
      cases a with
      | true =>
        have he : countRises (true :: b :: t') = countRises (b :: t') := rfl
        rw [he]
        exact ih hch'
      | false =>
        cases b with
        | false =>
          have he : countRises (false :: false :: t') =
              countRises (false :: t') := rfl
          rw [he]
          exact ih hch'
        | true =>
          have h0 : countRises (true :: t') = 0 := countRises_head_true hch'
          have he : countRises (false :: true :: t') =
              countRises (true :: t') + 1 := rfl
          rw [he, h0]

theorem lcLE_completed {a b : Option Lifecycle} (h : lcLE a b = true) :
    isCompletedSlot a = true → isCompletedSlot b = true := by
  intro ha
  rcases a with _ | la
  · simp [isCompletedSlot] at ha
  · cases la with
    | Submitted => simp [isCompletedSlot] at ha
    | Waiting w => simp [isCompletedSlot] at ha
    | Completed c =>
      rcases b with _ | lb
      · simp [lcLE] at h
      · cases lb with
        | Submitted => simp [lcLE] at h
        | Waiting w => simp [lcLE] at h
        | Completed c' => rfl

/-- C9: Lifecycle monotonicity: along any run of poll and drain steps that
does not panic, each slot's stored state moves only forward in the order
Submitted → Waiting → Completed (or Submitted → Completed directly), never
from Waiting back to Submitted nor out of Completed (whose payload stays
fixed), and the slot transitions into the completed state at most once. -/
theorem lifecycle_monotone (s : Slab) (steps : List Step) (tr : List Slab)
    (j : Nat) (h : runTrace s steps = some tr) :
    List.Chain' (fun a b => lcLE (slabGet a j) (slabGet b j) = true) tr ∧
    countRises (tr.map fun a => isCompletedSlot (slabGet a j)) ≤ 1 := by
  have hch := runTrace_chain h j
  refine ⟨hch, countRises_le_one _ ?_⟩
  rw [List.chain'_map]
  exact hch.imp fun a b hab => lcLE_completed hab

/-- Witness for C9 on the run poll-then-complete of a one-slot table. -/
theorem lifecycle_monotone_witness :
    List.Chain'
      (fun a b => lcLE (slabGet a 0) (slabGet b 0) = true)
      [[some .Submitted], [some (.Waiting 1)],
        [some (.Completed { user_data := 0, result := 3 })]] ∧
    countRises
      ([[some .Submitted], [some (.Waiting 1)],
        [some (.Completed { user_data := 0, result := 3 })]].map
        fun a => isCompletedSlot (slabGet a 0)) ≤ 1 :=
  lifecycle_monotone [some .Submitted]
    [.pollStep 0 1, .cqeStep { user_data := 0, result := 3 }]
    [[some .Submitted], [some (.Waiting 1)],
      [some (.Completed { user_data := 0, result := 3 })]] 0 (by decide)
